import Mathlib

/-!
Verification development for the payslip Markdown post-processing core
(examples/fix_payslip_header.py): filename hint extraction, header field
extraction, header rewriting and first-table row filtering.

Strings are modelled as List Char.  Python's regular expressions are
embedded as specialised position-indexed matchers (each source regex is
simple enough that its search semantics are deterministic); the word
characters, digit characters and whitespace set are modelled over ASCII,
which covers the payroll documents this code targets.  Newlines are
modelled as the single character '\n' (Python splitlines additionally
recognises exotic separators that never occur in this data).
-/

namespace PayslipFix

def strL (s : String) : List Char := s.toList

/-- ASCII digit, as matched by the source's regex token for a digit. -/
def isDigitC (c : Char) : Bool := '0' ≤ c && c ≤ '9'

/-- ASCII uppercase letter (the source's character class A-Z). -/
def isUpperC (c : Char) : Bool := 'A' ≤ c && c ≤ 'Z'

/-- ASCII lowercase letter (the source's character class a-z). -/
def isLowerC (c : Char) : Bool := 'a' ≤ c && c ≤ 'z'

def isAlphaC (c : Char) : Bool := isUpperC c || isLowerC c

/-- Word character for regex word-boundary tests: letter, digit or underscore. -/
def isWordC (c : Char) : Bool := isAlphaC c || isDigitC c || c = '_'

/-- Python whitespace set (space, tab, newline, carriage return, vertical tab, form feed). -/
def isSpaceC (c : Char) : Bool :=
  c = ' ' || c = '\t' || c = '\n' || c = '\r' || c = Char.ofNat 11 || c = Char.ofNat 12

def lowerL (l : List Char) : List Char := l.map Char.toLower

/-- Does pat occur at the very start of l?  (str.startswith) -/
def startsWithL : List Char → List Char → Bool
  | [], _ => true
  | _ :: _, [] => false
  | p :: ps, c :: cs => p = c && startsWithL ps cs

/-- Index of the first occurrence of pat in l (str.find; none when absent). -/
def firstAt (pat : List Char) : List Char → Option Nat
  | [] => if startsWithL pat [] then some 0 else none
  | c :: t => if startsWithL pat (c :: t) then some 0 else (firstAt pat t).map (· + 1)

/-- Substring membership (Python: pat in l). -/
def containsSub (pat l : List Char) : Bool := (firstAt pat l).isSome

/-- Python slice l[a:b]. -/
def pySub (l : List Char) (a b : Nat) : List Char := (l.drop a).take (b - a)

/-- Slice of length k starting at i. -/
def sliceL (l : List Char) (i k : Nat) : List Char := (l.drop i).take k

/-- str.lstrip() -/
def lstripL (l : List Char) : List Char := l.dropWhile isSpaceC

/-- str.strip() -/
def stripL (l : List Char) : List Char :=
  ((l.dropWhile isSpaceC).reverse.dropWhile isSpaceC).reverse

/-- Scanner for whitespace-run collapsing; the flag records whether the
previous character belonged to a whitespace run already emitted as one
space. -/
def collapseWSGo : Bool → List Char → List Char
  | _, [] => []
  | inRun, c :: t =>
    if isSpaceC c then
      if inRun then collapseWSGo true t else ' ' :: collapseWSGo true t
    else c :: collapseWSGo false t

/-- re.sub(whitespace-run, single space, s): collapse every maximal
whitespace run to one space character. -/
def collapseWS (l : List Char) : List Char := collapseWSGo false l

/-- str.splitlines() for newline-separated text: segments between newline
characters, with no empty trailing segment for a terminal newline. -/
def splitlinesL : List Char → List (List Char)
  | [] => []
  | c :: t =>
    if c = '\n' then [] :: splitlinesL t
    else
      match splitlinesL t with
      | [] => [[c]]
      | s :: ss => (c :: s) :: ss

/-- str.splitlines(keepends=True): like splitlinesL but each segment keeps
its terminating newline. -/
def splitlinesKeepL : List Char → List (List Char)
  | [] => []
  | c :: t =>
    if c = '\n' then ['\n'] :: splitlinesKeepL t
    else
      match splitlinesKeepL t with
      | [] => [[c]]
      | s :: ss => (c :: s) :: ss

/-- str.split(sep) for a single-character separator: keeps empty segments,
result is always nonempty. -/
def splitOnC (sep : Char) : List Char → List (List Char)
  | [] => [[]]
  | c :: t =>
    if c = sep then [] :: splitOnC sep t
    else
      match splitOnC sep t with
      | [] => [[c]]
      | s :: ss => (c :: s) :: ss

/-- Split at every whitespace character, keeping empty segments. -/
def splitWSAll : List Char → List (List Char)
  | [] => [[]]
  | c :: t =>
    if isSpaceC c then [] :: splitWSAll t
    else
      match splitWSAll t with
      | [] => [[c]]
      | s :: ss => (c :: s) :: ss

/-- str.split() with no argument: whitespace-run separated words, no empties.
Splitting at every whitespace character and discarding empty segments is
equivalent to splitting on maximal whitespace runs. -/
def pySplitWS (l : List Char) : List (List Char) :=
  (splitWSAll l).filter (fun s => !(s.isEmpty))

/-- "".join -/
def joinL (ls : List (List Char)) : List Char := ls.flatten

/-- "\n".join -/
def joinNL : List (List Char) → List Char
  | [] => []
  | [x] => x
  | x :: y :: rest => x ++ '\n' :: joinNL (y :: rest)

/-! ## Regex matchers

Each regex of the source is embedded as a matcher trying to match at a
given position i of the text, returning the match length on success.
Word boundaries: a match of a pattern whose first character is a word
character starts at a boundary iff the preceding character is absent or
not a word character; symmetrically at the end. -/

/-- Word boundary immediately before position i (the pattern's first
character is a word character). -/
def bbAt (l : List Char) : Nat → Bool
  | 0 => true
  | j + 1 => !(isWordC (l.getD j ' '))

/-- Word boundary immediately after a match ending at position j (the
pattern's last character is a word character). -/
def baAt (l : List Char) (j : Nat) : Bool :=
  decide (l.length ≤ j) || !(isWordC (l.getD j ' '))

/-- The n characters starting at i all satisfy p (out-of-range positions
read the default ' ', which fails every class, so bounds are implied). -/
def charsAt (l : List Char) (i n : Nat) (p : Char → Bool) : Bool :=
  (List.range n).all (fun k => p (l.getD (i + k) ' '))

/-- Length of the maximal run of p-characters starting at i. -/
def runLen (p : Char → Bool) (l : List Char) (i : Nat) : Nat :=
  ((l.drop i).takeWhile p).length

def isUpperDigitC (c : Char) : Bool := isUpperC c || isDigitC c

/-- PAN regex: word boundary, 5 uppercase, 4 uppercase-or-digit, 1 uppercase,
word boundary.  Match length 10. -/
def matchPAN (l : List Char) (i : Nat) : Option Nat :=
  if bbAt l i && charsAt l i 5 isUpperC && charsAt l (i + 5) 4 isUpperDigitC
      && isUpperC (l.getD (i + 9) ' ') && baAt l (i + 10) then some 10 else none

/-- The boundary-delimited 12-digit-token test of the UAN regex at position i. -/
def uanTokenAt (l : List Char) (i : Nat) : Bool :=
  bbAt l i && charsAt l i 12 isDigitC && baAt l (i + 12)

/-- UAN regex: word boundary, 12 digits, word boundary.  Match length 12. -/
def matchUAN (l : List Char) (i : Nat) : Option Nat :=
  if uanTokenAt l i then some 12 else none

/-- PF regex (1-3 uppercase, slash, digits, slash, digits, between word
boundaries).  The quantifiers are exact or maximal-run deterministic: a
greedy engine matches here iff the maximal uppercase run has length 1-3
and is directly followed by the first slash, and each digit run is the
maximal one directly followed by the slash resp. the closing boundary. -/
def matchPF (l : List Char) (i : Nat) : Option Nat :=
  let u := runLen isUpperC l i
  if bbAt l i && decide (1 ≤ u) && decide (u ≤ 3) && decide (l.getD (i + u) ' ' = '/') then
    let d1 := runLen isDigitC l (i + u + 1)
    if decide (1 ≤ d1) && decide (l.getD (i + u + 1 + d1) ' ' = '/') then
      let d2 := runLen isDigitC l (i + u + 1 + d1 + 1)
      if decide (1 ≤ d2) && baAt l (i + u + 1 + d1 + 1 + d2) then
        some (u + 1 + d1 + 1 + d2)
      else none
    else none
  else none

/-- IFSC regex: word boundary, 4 uppercase, the digit zero, 6
uppercase-or-digit, word boundary.  Match length 11. -/
def matchIFSC (l : List Char) (i : Nat) : Option Nat :=
  if bbAt l i && charsAt l i 4 isUpperC && decide (l.getD (i + 4) ' ' = '0')
      && charsAt l (i + 5) 6 isUpperDigitC && baAt l (i + 11) then some 11 else none

/-- Date regex: word boundary, 2 digits, dash, 2 digits, dash, 4 digits,
word boundary.  Match length 10. -/
def matchDate (l : List Char) (i : Nat) : Option Nat :=
  if bbAt l i && charsAt l i 2 isDigitC && decide (l.getD (i + 2) ' ' = '-')
      && charsAt l (i + 3) 2 isDigitC && decide (l.getD (i + 5) ' ' = '-')
      && charsAt l (i + 6) 4 isDigitC && baAt l (i + 10) then some 10 else none

/-- Regex for a boundary-delimited run of 1 to 3 digits: matches at i iff
the maximal digit run there has length 1-3 and closes at a boundary. -/
def matchDays (l : List Char) (i : Nat) : Option Nat :=
  let r := runLen isDigitC l i
  if bbAt l i && decide (1 ≤ r) && decide (r ≤ 3) && baAt l (i + r) then some r else none

/-- Regex for a boundary-delimited run of 10 or more digits. -/
def matchLongRun (l : List Char) (i : Nat) : Option Nat :=
  let r := runLen isDigitC l i
  if bbAt l i && decide (10 ≤ r) && baAt l (i + r) then some r else none

/-- re.search: try each position from the left; return (start, length) of
the first match. -/
def reSearchGo (m : List Char → Nat → Option Nat) (l : List Char) :
    Nat → Nat → Option (Nat × Nat)
  | 0, _ => none
  | fuel + 1, i =>
    if l.length < i then none
    else
      match m l i with
      | some k => some (i, k)
      | none => reSearchGo m l fuel (i + 1)

def reSearch (m : List Char → Nat → Option Nat) (l : List Char) : Option (Nat × Nat) :=
  reSearchGo m l (l.length + 1) 0

/-- re.finditer: non-overlapping matches scanned left to right; after a
match the scan resumes at its end (all matchers here have positive length). -/
def finditerGo (m : List Char → Nat → Option Nat) (l : List Char) :
    Nat → Nat → List (Nat × Nat)
  | 0, _ => []
  | fuel + 1, i =>
    if l.length < i then []
    else
      match m l i with
      | some k => (i, k) :: finditerGo m l fuel (i + k)
      | none => finditerGo m l fuel (i + 1)

def finditerL (m : List Char → Nat → Option Nat) (l : List Char) : List (Nat × Nat) :=
  finditerGo m l (l.length + 1) 0

/-! ## Header mapping

Python dict with string keys: insertion-ordered association list; setting
an existing key overwrites in place, a new key is appended. -/

abbrev HMap : Type := List (String × List Char)

def hmGet : HMap → String → Option (List Char)
  | [], _ => none
  | (k', v') :: t, k => if k' = k then some v' else hmGet t k

def hmSet : HMap → String → List Char → HMap
  | [], k, v => [(k, v)]
  | (k', v') :: t, k, v => if k' = k then (k, v) :: t else (k', v') :: hmSet t k v

/-- dict.setdefault(k, v): set only when the key is absent. -/
def hmSetdefault (m : HMap) (k : String) (v : List Char) : HMap :=
  match hmGet m k with
  | some _ => m
  | none => hmSet m k v

/-! ## Header block locator -/

/-- The markers whose earliest occurrence cuts the document into header
region and body (source: cut_idx scan over newline-led table-row and
heading markers). -/
def nlMarkers : List (List Char) :=
  [['\n', '|', ' '], ['\n', '#', '#', ' '], ['\n', '#', ' ']]

/-- The pre-table/pre-heading cut index: minimum over the markers of the
first occurrence offset, defaulting to the document length. -/
def cutIdx (l : List Char) : Nat :=
  nlMarkers.foldl
    (fun acc mk => match firstAt mk l with | some i => min acc i | none => acc)
    l.length

/-- The header region: text before the cut index. -/
def headerTake (l : List Char) : List Char := l.take (cutIdx l)

/-! ## Filename hint extractor

The source takes a filesystem path and reads only its stem (base name
with the final extension removed); path handling is plumbing outside the
core, so the stem is the input here. -/

/-- re.fullmatch of 4-or-more digits. -/
def fullmatchDigits4 (s : List Char) : Bool := decide (4 ≤ s.length) && s.all isDigitC

/-- re.fullmatch of one-or-more letters. -/
def fullmatchAlpha (s : List Char) : Bool := !(s.isEmpty) && s.all isAlphaC

/-- One capitalized word: an uppercase letter followed by one or more letters. -/
def capWord (w : List Char) : Bool :=
  decide (2 ≤ w.length) && isUpperC (w.headD ' ') && w.all isAlphaC

/-- re.fullmatch of exactly two space-separated capitalized words.  The
word class cannot match a space, so the regex is equivalent to the split
on single spaces yielding exactly two conforming words. -/
def fullmatchNamePair (s : List Char) : Bool :=
  match splitOnC ' ' s with
  | [w1, w2] => capWord w1 && capWord w2
  | _ => false

/-- re.fullmatch of two or three space-separated capitalized words. -/
def fullmatchName23 (s : List Char) : Bool :=
  match splitOnC ' ' s with
  | [w1, w2] => capWord w1 && capWord w2
  | [w1, w2, w3] => capWord w1 && capWord w2 && capWord w3
  | _ => false

/-- re.fullmatch of 4 to 8 digits. -/
def fullmatchDigits48 (s : List Char) : Bool :=
  decide (4 ≤ s.length) && decide (s.length ≤ 8) && s.all isDigitC

/-- extract_filename_hints: split the stem on underscores; with at least 3
tokens, a trailing 4-or-more digit token becomes EmpNo, and with at least
4 tokens an alphabetic second-to-last token yields a candidate
"First Last" name from the last two tokens before the number. -/
def extractFilenameHints (stem : List Char) : HMap :=
  let parts := splitOnC '_' stem
  if 3 ≤ parts.length then
    let last := parts.getLastD []
    let prev := parts.getD (parts.length - 2) []
    let h1 : HMap := if fullmatchDigits4 last then hmSet [] "EmpNo" last else []
    if fullmatchAlpha prev && decide (4 ≤ parts.length) then
      let maybeName := parts.getD (parts.length - 3) [] ++ ' ' :: prev
      if fullmatchNamePair maybeName then hmSet h1 "Name" maybeName else h1
    else h1
  else []

/-! ## Field extractor (parse_header_pairs) -/

/-- The stripped nonempty lines of the header block. -/
def linesOf (header : List Char) : List (List Char) :=
  ((splitlinesL header).map stripL).filter (fun s => !(s.isEmpty))

/-- PAN step: first PAN-shaped token of the header block. -/
def stepPAN (header : List Char) (m : HMap) : HMap :=
  match reSearch matchPAN header with
  | some (i, k) => hmSet m "PAN" (sliceL header i k)
  | none => m

/-- UAN step: the loop keeps the last 12-digit token found by finditer. -/
def stepUAN (header : List Char) (m : HMap) : HMap :=
  match (finditerL matchUAN header).getLast? with
  | some (i, k) => hmSet m "UAN" (sliceL header i k)
  | none => m

/-- PF step: first PF-shaped token of the header block. -/
def stepPF (header : List Char) (m : HMap) : HMap :=
  match reSearch matchPF header with
  | some (i, k) => hmSet m "PF No." (sliceL header i k)
  | none => m

/-- A line is the join line when it contains both a date-shaped and an
IFSC-shaped token. -/
def isJoinLine (ln : List Char) : Bool :=
  (reSearch matchDate ln).isSome && (reSearch matchIFSC ln).isSome

/-- Bank-account pick: among long digit runs, those starting before the
IFSC match, keeping the first longest (strictly longer replaces). -/
def pickAcct (ms : List (Nat × Nat)) (ifscM : Option (Nat × Nat)) : Option (Nat × Nat) :=
  ms.foldl
    (fun acc mm =>
      match ifscM with
      | some (ii, _) =>
        if mm.1 < ii then
          match acc with
          | none => some mm
          | some a => if a.2 < mm.2 then some mm else acc
        else acc
      | none => acc)
    none

/-- Record a token for key when the match is present (the pattern
"if m: header_map[key] = m.group(0)" of the source). -/
def setTok (key : String) (src : List Char) (o : Option (Nat × Nat)) (m : HMap) : HMap :=
  match o with
  | some (i, k) => hmSet m key (sliceL src i k)
  | none => m

/-- Bank-Name record: when both the days match and the account match
exist, the text of rest2 between the days-match end offset and the
account start, stripped and whitespace-collapsed, is recorded if truthy.
Note the source slices rest2 with the days-match end offset, an index
into rest (one frame earlier); this is kept faithfully. -/
def setBankName (rest2 : List Char) (daysM acctM : Option (Nat × Nat)) (m : HMap) : HMap :=
  match daysM, acctM with
  | some (di, dk), some (ai, _) =>
    let bn := collapseWS (stripL (pySub rest2 (di + dk) ai))
    if bn.isEmpty then m else hmSet m "Bank Name" bn
  | _, _ => m

/-- Location record: the text after the IFSC match, stripped and
whitespace-collapsed, recorded if truthy. -/
def setLocation (rest2 : List Char) (ifscM : Option (Nat × Nat)) (m : HMap) : HMap :=
  match ifscM with
  | some (i, k) =>
    let af := collapseWS (stripL (rest2.drop (i + k)))
    if af.isEmpty then m else hmSet m "Location" af
  | none => m

/-- Join-line step: positional extraction of Date of Joining, Payable
Days, Bank Account, IFS Code, Bank Name and Location from the single
join line, in the source's assignment order (innermost first). -/
def stepJoin : Option (List Char) → HMap → HMap
  | none, m => m
  | some jl, m =>
    let dateM := reSearch matchDate jl
    let rest := match dateM with
      | some (i, k) => jl.drop (i + k)
      | none => jl
    let daysM := reSearch matchDays rest
    let rest2 := match daysM with
      | some (i, k) => rest.drop (i + k)
      | none => rest
    let ifscM := reSearch matchIFSC rest2
    let acctM := pickAcct (finditerL matchLongRun rest2) ifscM
    setLocation rest2 ifscM
      (setBankName rest2 daysM acctM
        (setTok "IFS Code" rest2 ifscM
          (setTok "Bank Account" rest2 acctM
            (setTok "Payable Days" rest daysM
              (setTok "Date of Joining" jl dateM m)))))

def roleKeywords : List (List Char) :=
  [strL "Engineer", strL "Manager", strL "Director", strL "Analyst", strL "Developer",
   strL "Consultant", strL "Associate", strL "Lead", strL "Specialist", strL "Architect"]

/-- Designation step: first line containing a role keyword and at most 5
whitespace-separated words. -/
def stepDesig (lines : List (List Char)) (m : HMap) : HMap :=
  match lines.find? (fun ln =>
      roleKeywords.any (fun kw => containsSub kw ln)
        && decide ((pySplitWS ln).length ≤ 5)) with
  | some ln => hmSetdefault m "Designation" ln
  | none => m

/-- Name step: if Name is absent, first line other than the Designation
line that fully matches a 2-3 word capitalized phrase. -/
def stepName (lines : List (List Char)) (m : HMap) : HMap :=
  match hmGet m "Name" with
  | some _ => m
  | none =>
    match lines.find? (fun ln =>
        !(decide (hmGet m "Designation" = some ln)) && fullmatchName23 ln) with
    | some ln => hmSet m "Name" ln
    | none => m

/-- str.isdigit(): nonempty and all digits. -/
def pyIsDigit (s : List Char) : Bool := !(s.isEmpty) && s.all isDigitC

/-- The numeric values already used by UAN, Bank Account and Payable Days. -/
def usedNums (m : HMap) : List (List Char) :=
  (["UAN", "Bank Account", "Payable Days"] : List String).filterMap
    (fun k => match hmGet m k with
      | some v => if pyIsDigit v then some v else none
      | none => none)

/-- EmpNo step: the filename hint wins; otherwise the first standalone 4-8
digit line not among the used numeric values. -/
def stepEmpNo (lines : List (List Char)) (hints : HMap) (m : HMap) : HMap :=
  match hmGet hints "EmpNo" with
  | some e => hmSet m "EmpNo" e
  | none =>
    match lines.find? (fun ln =>
        fullmatchDigits48 ln
          && !((usedNums m).any (fun u => decide (u = ln)))) with
    | some ln => hmSet m "EmpNo" ln
    | none => m

/-- Final hint override: a Name filename hint replaces any extracted Name. -/
def stepHintName (hints : HMap) (m : HMap) : HMap :=
  match hmGet hints "Name" with
  | some n => hmSet m "Name" n
  | none => m

/-- parse_header_pairs on the header block: the ordered extraction steps
of the source, threading the mapping. -/
def parseCore (header : List Char) (hints : HMap) : HMap :=
  let lines := linesOf header
  stepHintName hints
    (stepEmpNo lines hints
      (stepName lines
        (stepDesig lines
          (stepJoin (lines.find? isJoinLine)
            (stepPF header
              (stepUAN header
                (stepPAN header [])))))))

/-- parse_header_pairs(md_text, pdf_path): the header block is the text
before the cut index; filename hints come from the path stem. -/
def parseHeaderPairs (md : List Char) (stem : List Char) : HMap :=
  parseCore (headerTake md) (extractFilenameHints stem)

/-! ## Header rewriter (rewrite_header) -/

/-- The fixed canonical field order of the emitted header block. -/
def canonOrder : List String :=
  ["Name", "Designation", "EmpNo", "PAN", "UAN", "PF No.", "E.S.I. No.",
   "Date of Joining", "Payable Days", "Bank Name", "Bank Account", "IFS Code", "Location"]

/-- One emitted header line. -/
def fmtLine (k : String) (v : List Char) : List Char :=
  strL "**" ++ strL k ++ strL "**: " ++ v

/-- The line contributed by one canonical key: present and truthy
(nonempty) values produce a formatted line, anything else nothing. -/
def lineF (m : HMap) (k : String) : Option (List Char) :=
  match hmGet m k with
  | some v => if v.isEmpty then none else some (fmtLine k v)
  | none => none

/-- The emitted header lines: the source's loop over the canonical order,
appending a line per truthy value. -/
def headerLines (m : HMap) : List (List Char) :=
  canonOrder.foldl
    (fun acc k => match lineF m k with | some x => acc ++ [x] | none => acc)
    []

/-- The clean header block: newline-joined lines plus a blank line. -/
def cleanHeaderOf (m : HMap) : List Char := joinNL (headerLines m) ++ strL "\n\n"

/-- rewrite_header: clean header block followed by the original text from
the (recomputed) cut index onward. -/
def rewriteHeader (md : List Char) (m : HMap) : List Char :=
  cleanHeaderOf m ++ md.drop (cutIdx md)

/-! ## Table row filter (_clean_first_table) -/

/-- A line belongs to a table region when its left-stripped form starts
with the delimiter. -/
def isTableLine (ln : List Char) : Bool :=
  match lstripL ln with
  | '|' :: _ => true
  | _ => false

/-- is_alignment_row: stripped row starts with the delimiter and, with all
delimiters removed and re-stripped, consists only of dashes, colons and
spaces. -/
def isAlignmentRow (s : List Char) : Bool :=
  let b := stripL s
  (match b with | '|' :: _ => true | _ => false)
    && (stripL (b.filter (fun c => !(c = '|')))).all
        (fun c => c = '-' || c = ':' || c = ' ')

/-- The vocabulary: lowercased keys of the supplied mapping plus the fixed
auxiliary merged-label strings (a set in the source; only membership is
used, so a list with duplicates is equivalent). -/
def tokensOf (keys : HMap) : List (List Char) :=
  keys.map (fun p => lowerL (strL p.1))
    ++ [strL "date of joining", strL "payable days", strL "bank name",
        strL "bank account", strL "ifs code", strL "location"]

/-- Row retention: alignment rows always; content rows unless their
lowercased text contains some vocabulary token as a substring. -/
def keepRow (keys : HMap) (ln : List Char) : Bool :=
  isAlignmentRow ln || !((tokensOf keys).any (fun t => containsSub t (lowerL ln)))

/-- Index of the first table line, when any. -/
def ftStart (md : List Char) : Option Nat :=
  (splitlinesKeepL md).findIdx? isTableLine

/-- The contiguous table run starting at line index s (the source's while
loop collecting delimiter-prefixed lines). -/
def tableRun (md : List Char) (s : Nat) : List (List Char) :=
  ((splitlinesKeepL md).drop s).takeWhile isTableLine

/-- _clean_first_table: remove the vocabulary-matching content rows of the
first table; return the input unchanged when there is no table or no row
was removed. -/
def cleanFirstTable (md : List Char) (keys : HMap) : List Char :=
  let lines := splitlinesKeepL md
  match ftStart md with
  | none => md
  | some s =>
    let table := tableRun md s
    let e := s + table.length
    let filtered := table.filter (keepRow keys)
    if filtered = table then md
    else joinL (lines.take s) ++ joinL filtered ++ joinL (lines.drop e)

/-- The canonical key dictionary passed to _clean_first_table by the
pipeline wrapper (values unused). -/
def canonicalKeys : HMap :=
  [("Name", []), ("Designation", []), ("EmpNo", []), ("PAN", []), ("UAN", []),
   ("PF No.", []), ("E.S.I. No.", []), ("Date of Joining", []), ("Payable Days", []),
   ("Bank Name", []), ("Bank Account", []), ("IFS Code", []), ("Location", [])]

/-- The markdown post-processing pipeline of convert_with_fix:
filter-first-table(rewrite-header(T, extract(T)), canonical vocabulary). -/
def pipelineFix (md : List Char) (stem : List Char) : List Char :=
  cleanFirstTable (rewriteHeader md (parseHeaderPairs md stem)) canonicalKeys

/-! ## Spec-side definitions

Definitions below transcribe the specification's wording, independently
of the source transcriptions above, for comparison. -/

/-- Does some cut marker occur at the very start of the text? -/
def anyNLMarkerAt (l : List Char) : Bool :=
  nlMarkers.any (fun mk => startsWithL mk l)

/-- Spec-style scan: the earliest offset at which one of the three
newline-led marker strings begins, defaulting to the text length. -/
def specCutNL : List Char → Nat
  | [] => 0
  | c :: t => if anyNLMarkerAt (c :: t) then 0 else specCutNL t + 1

/-- The claim's markers, as they would start a line: table-row start,
level-2 heading, level-1 heading (no leading newline). -/
def lineMarkers : List (List Char) :=
  [['|', ' '], ['#', '#', ' '], ['#', ' ']]

/-- Claim-version cut index (for refutation): the earliest offset,
scanning from the very start of the document including offset 0, at
which one of the three line markers begins; the length when none does. -/
def claimCut : List Char → Nat
  | [] => 0
  | c :: t => if lineMarkers.any (fun mk => startsWithL mk (c :: t)) then 0 else claimCut t + 1

/-- Spec-style enumeration of every boundary-delimited 12-digit token of
the text, in left-to-right order of starting position. -/
def specUANs (l : List Char) : List (List Char) :=
  ((List.range (l.length + 1)).filter (uanTokenAt l)).map (fun i => sliceL l i 12)

/-- The canonical order with the E.S.I. No. slot removed. -/
def canonOrderNoESI : List String :=
  ["Name", "Designation", "EmpNo", "PAN", "UAN", "PF No.",
   "Date of Joining", "Payable Days", "Bank Name", "Bank Account", "IFS Code", "Location"]

/-- Spec-side vocabulary: the thirteen lowercased canonical field names. -/
def vocab13 : List (List Char) :=
  [strL "name", strL "designation", strL "empno", strL "pan", strL "uan",
   strL "pf no.", strL "e.s.i. no.", strL "date of joining", strL "payable days",
   strL "bank name", strL "bank account", strL "ifs code", strL "location"]

/-- Total first-table start: line index of the first table line, the line
count when there is no table. -/
def ftStartN (md : List Char) : Nat :=
  match ftStart md with
  | some s => s
  | none => (splitlinesKeepL md).length

/-- The first-table region as a list of lines (empty when no table). -/
def tableSliceD (md : List Char) : List (List Char) :=
  match ftStart md with
  | some s => tableRun md s
  | none => []

/-- Total first-table end (exclusive line index). -/
def ftEndN (md : List Char) : Nat := ftStartN md + (tableSliceD md).length

/-- The rows of the first table retained by the filter. -/
def keptRows (md : List Char) (keys : HMap) : List (List Char) :=
  (tableSliceD md).filter (keepRow keys)

/-- The concrete document of the specification's end-to-end header
example: a PAN token, a 12-digit run, a PF line and the join line. -/
def exampleDoc : List Char :=
  strL "ABCDE1234F\n123456789012\nAB/1234/5678\n12-04-2019 26 State Bank 1234567890123 SBIN0001234 Mumbai\n"

/-! ## Mapping lemmas -/

theorem hmGet_set_self (m : HMap) (k : String) (v : List Char) :
    hmGet (hmSet m k v) k = some v := by
  induction m with
  | nil => simp [hmSet, hmGet]
  | cons p t ih =>
    obtain ⟨k', v'⟩ := p
    by_cases h : k' = k <;> simp [hmSet, hmGet, h, ih]

theorem hmGet_set_ne (m : HMap) (k : String) (v : List Char) (k' : String)
    (h : k' ≠ k) : hmGet (hmSet m k v) k' = hmGet m k' := by
  induction m with
  | nil => simp [hmSet, hmGet, Ne.symm h]
  | cons p t ih =>
    obtain ⟨k0, v0⟩ := p
    by_cases h0 : k0 = k
    · subst h0
      simp [hmSet, hmGet, Ne.symm h]
    · simp [hmSet, hmGet, h0, ih]

theorem hmGet_setdefault_ne (m : HMap) (k : String) (v : List Char) (k' : String)
    (h : k' ≠ k) : hmGet (hmSetdefault m k v) k' = hmGet m k' := by
  unfold hmSetdefault
  cases hmGet m k with
  | some _ => rfl
  | none => exact hmGet_set_ne m k v k' h

/-! ## Step lookup preservation -/

theorem stepPAN_get (h : List Char) (m : HMap) (k : String) (hk : k ≠ "PAN") :
    hmGet (stepPAN h m) k = hmGet m k := by
  unfold stepPAN
  cases reSearch matchPAN h with
  | none => rfl
  | some ik => exact hmGet_set_ne m "PAN" _ k hk

theorem stepUAN_get (h : List Char) (m : HMap) (k : String) (hk : k ≠ "UAN") :
    hmGet (stepUAN h m) k = hmGet m k := by
  unfold stepUAN
  cases (finditerL matchUAN h).getLast? with
  | none => rfl
  | some ik => exact hmGet_set_ne m "UAN" _ k hk

theorem stepPF_get (h : List Char) (m : HMap) (k : String) (hk : k ≠ "PF No.") :
    hmGet (stepPF h m) k = hmGet m k := by
  unfold stepPF
  cases reSearch matchPF h with
  | none => rfl
  | some ik => exact hmGet_set_ne m "PF No." _ k hk

theorem setTok_get (key : String) (src : List Char) (o : Option (Nat × Nat))
    (m : HMap) (k : String) (hk : k ≠ key) :
    hmGet (setTok key src o m) k = hmGet m k := by
  cases o with
  | none => rfl
  | some ik => exact hmGet_set_ne m key _ k hk

theorem setBankName_get (rest2 : List Char) (daysM acctM : Option (Nat × Nat))
    (m : HMap) (k : String) (hk : k ≠ "Bank Name") :
    hmGet (setBankName rest2 daysM acctM m) k = hmGet m k := by
  cases daysM with
  | none => rfl
  | some d =>
    cases acctM with
    | none => rfl
    | some a =>
      obtain ⟨di, dk⟩ := d
      obtain ⟨ai, ak⟩ := a
      simp only [setBankName]
      split
      · rfl
      · exact hmGet_set_ne m "Bank Name" _ k hk

theorem setLocation_get (rest2 : List Char) (ifscM : Option (Nat × Nat))
    (m : HMap) (k : String) (hk : k ≠ "Location") :
    hmGet (setLocation rest2 ifscM m) k = hmGet m k := by
  cases ifscM with
  | none => rfl
  | some ik =>
    obtain ⟨i, kk⟩ := ik
    simp only [setLocation]
    split
    · rfl
    · exact hmGet_set_ne m "Location" _ k hk

theorem stepJoin_get (jl : Option (List Char)) (m : HMap) (k : String)
    (h1 : k ≠ "Date of Joining") (h2 : k ≠ "Payable Days") (h3 : k ≠ "Bank Account")
    (h4 : k ≠ "IFS Code") (h5 : k ≠ "Bank Name") (h6 : k ≠ "Location") :
    hmGet (stepJoin jl m) k = hmGet m k := by
  cases jl with
  | none => rfl
  | some l =>
    simp only [stepJoin]
    rw [setLocation_get _ _ _ _ h6, setBankName_get _ _ _ _ _ h5,
      setTok_get _ _ _ _ _ h4, setTok_get _ _ _ _ _ h3,
      setTok_get _ _ _ _ _ h2, setTok_get _ _ _ _ _ h1]

theorem stepDesig_get (lines : List (List Char)) (m : HMap) (k : String)
    (hk : k ≠ "Designation") : hmGet (stepDesig lines m) k = hmGet m k := by
  unfold stepDesig
  cases List.find? _ lines with
  | none => rfl
  | some ln => exact hmGet_setdefault_ne m "Designation" ln k hk

theorem stepName_get (lines : List (List Char)) (m : HMap) (k : String)
    (hk : k ≠ "Name") : hmGet (stepName lines m) k = hmGet m k := by
  unfold stepName
  cases hmGet m "Name" with
  | some _ => rfl
  | none =>
    cases List.find? _ lines with
    | none => rfl
    | some ln => exact hmGet_set_ne m "Name" ln k hk

theorem stepEmpNo_get (lines : List (List Char)) (hints m : HMap) (k : String)
    (hk : k ≠ "EmpNo") : hmGet (stepEmpNo lines hints m) k = hmGet m k := by
  unfold stepEmpNo
  cases hmGet hints "EmpNo" with
  | some e => exact hmGet_set_ne m "EmpNo" e k hk
  | none =>
    cases List.find? _ lines with
    | none => rfl
    | some ln => exact hmGet_set_ne m "EmpNo" ln k hk

theorem stepHintName_get (hints m : HMap) (k : String) (hk : k ≠ "Name") :
    hmGet (stepHintName hints m) k = hmGet m k := by
  unfold stepHintName
  cases hmGet hints "Name" with
  | none => rfl
  | some n => exact hmGet_set_ne m "Name" n k hk

/-- No extraction step ever writes the E.S.I. No. key. -/
theorem parse_get_esi (md stem : List Char) :
    hmGet (parseHeaderPairs md stem) "E.S.I. No." = none := by
  unfold parseHeaderPairs parseCore
  rw [stepHintName_get _ _ _ (by decide), stepEmpNo_get _ _ _ _ (by decide),
    stepName_get _ _ _ (by decide), stepDesig_get _ _ _ (by decide),
    stepJoin_get _ _ _ (by decide) (by decide) (by decide) (by decide) (by decide) (by decide),
    stepPF_get _ _ _ (by decide), stepUAN_get _ _ _ (by decide),
    stepPAN_get _ _ _ (by decide)]
  rfl

/-- The UAN entry of the final mapping is exactly the last finditer match
of the 12-digit regex over the header block. -/
theorem parse_get_uan (md stem : List Char) :
    hmGet (parseHeaderPairs md stem) "UAN" =
      ((finditerL matchUAN (headerTake md)).getLast?).map
        (fun ik => sliceL (headerTake md) ik.1 ik.2) := by
  unfold parseHeaderPairs parseCore
  rw [stepHintName_get _ _ _ (by decide), stepEmpNo_get _ _ _ _ (by decide),
    stepName_get _ _ _ (by decide), stepDesig_get _ _ _ (by decide),
    stepJoin_get _ _ _ (by decide) (by decide) (by decide) (by decide) (by decide) (by decide),
    stepPF_get _ _ _ (by decide)]
  unfold stepUAN
  cases (finditerL matchUAN (headerTake md)).getLast? with
  | none =>
    simp only [Option.map_none']
    rw [stepPAN_get _ _ _ (by decide)]
    rfl
  | some ik => exact hmGet_set_self _ "UAN" _

/-! ## Cut-index lemmas -/

theorem firstAt_cons (pat : List Char) (c : Char) (t : List Char)
    (h : startsWithL pat (c :: t) = false) :
    firstAt pat (c :: t) = (firstAt pat t).map (· + 1) := by
  simp [firstAt, h]

theorem cutIdx_nil : cutIdx [] = 0 := by decide

/-- First-occurrence offset with the text length as default. -/
def fD (pat l : List Char) : Nat :=
  match firstAt pat l with
  | some i => i
  | none => l.length

theorem cutIdx_eq_min (l : List Char) :
    cutIdx l =
      min (min (min l.length (fD ['\n', '|', ' '] l)) (fD ['\n', '#', '#', ' '] l))
        (fD ['\n', '#', ' '] l) := by
  simp only [cutIdx, nlMarkers, List.foldl, fD]
  rcases h1 : firstAt ['\n', '|', ' '] l with _ | i1 <;>
    rcases h2 : firstAt ['\n', '#', '#', ' '] l with _ | i2 <;>
      rcases h3 : firstAt ['\n', '#', ' '] l with _ | i3 <;>
        simp [h1, h2, h3]

theorem fD_cons (pat : List Char) (c : Char) (t : List Char)
    (h : startsWithL pat (c :: t) = false) : fD pat (c :: t) = fD pat t + 1 := by
  simp only [fD, firstAt_cons _ _ _ h]
  cases firstAt pat t <;> simp

theorem cutIdx_zero (l : List Char) (h : anyNLMarkerAt l = true) : cutIdx l = 0 := by
  cases l with
  | nil => exact absurd h (by decide)
  | cons c t =>
    rw [cutIdx_eq_min]
    simp only [anyNLMarkerAt, nlMarkers, List.any_cons, List.any_nil, Bool.or_eq_true,
      Bool.or_false] at h
    rcases h with h | h | h
    · have h0 : fD ['\n', '|', ' '] (c :: t) = 0 := by simp [fD, firstAt, h]
      rw [h0]; omega
    · have h0 : fD ['\n', '#', '#', ' '] (c :: t) = 0 := by simp [fD, firstAt, h]
      rw [h0]; omega
    · have h0 : fD ['\n', '#', ' '] (c :: t) = 0 := by simp [fD, firstAt, h]
      rw [h0]; omega

theorem cutIdx_cons (c : Char) (t : List Char) (h : anyNLMarkerAt (c :: t) = false) :
    cutIdx (c :: t) = cutIdx t + 1 := by
  simp only [anyNLMarkerAt, nlMarkers, List.any_cons, List.any_nil, Bool.or_false,
    Bool.or_eq_false_iff] at h
  rw [cutIdx_eq_min, cutIdx_eq_min, fD_cons _ _ _ h.1, fD_cons _ _ _ h.2.1,
    fD_cons _ _ _ h.2.2]
  simp only [List.length_cons]
  omega

/-- The source's marker scan never recognises a marker on the first line:
it equals the scan for the three newline-led marker strings. -/
theorem cutIdx_eq_specCutNL (l : List Char) : cutIdx l = specCutNL l := by
  induction l with
  | nil => rw [cutIdx_nil]; rfl
  | cons c t ih =>
    cases h : anyNLMarkerAt (c :: t) with
    | true => rw [cutIdx_zero _ h]; simp [specCutNL, h]
    | false => rw [cutIdx_cons _ _ h]; simp [specCutNL, h, ih]

/-- The text at the cut index is empty or starts with a cut marker. -/
theorem cut_drop (l : List Char) :
    l.drop (cutIdx l) = [] ∨ anyNLMarkerAt (l.drop (cutIdx l)) = true := by
  induction l with
  | nil => left; simp
  | cons c t ih =>
    cases h : anyNLMarkerAt (c :: t) with
    | true => right; rw [cutIdx_zero _ h]; exact h
    | false => rw [cutIdx_cons _ _ h]; simpa using ih

/-! ## Second-run behaviour of the pipeline -/

/-- With an empty mapping the rewritten document is a blank header block
followed by the original body. -/
theorem rewrite_empty (T : List Char) :
    rewriteHeader T [] = '\n' :: '\n' :: T.drop (cutIdx T) := rfl

/-- A blank block followed by empty-or-marker-led text cuts at offset 2. -/
theorem cutIdx_2nl (rest : List Char)
    (h : rest = [] ∨ anyNLMarkerAt rest = true) :
    cutIdx ('\n' :: '\n' :: rest) = 2 := by
  have hhead : ∀ r' : List Char, anyNLMarkerAt r' = true → ∃ rr, r' = '\n' :: rr := by
    intro r' hr
    cases r' with
    | nil => exact absurd hr (by decide)
    | cons a rr =>
      refine ⟨rr, ?_⟩
      simp only [anyNLMarkerAt, nlMarkers, List.any_cons, List.any_nil, Bool.or_false,
        Bool.or_eq_true] at hr
      rcases hr with hr | hr | hr <;>
        · simp only [startsWithL, Bool.and_eq_true, decide_eq_true_eq] at hr
          rw [hr.1]
  have h1 : anyNLMarkerAt ('\n' :: '\n' :: rest) = false := by
    simp [anyNLMarkerAt, nlMarkers, startsWithL]
  have h2 : anyNLMarkerAt ('\n' :: rest) = false := by
    rcases h with h | h
    · subst h; decide
    · obtain ⟨rr, hrr⟩ := hhead rest h
      subst hrr
      simp [anyNLMarkerAt, nlMarkers, startsWithL]
  rw [cutIdx_cons _ _ h1, cutIdx_cons _ _ h2]
  rcases h with h | h
  · subst h; rw [cutIdx_nil]
  · rw [cutIdx_zero _ h]

/-- Re-extraction over a blank header block with no filename hints finds
nothing. -/
theorem parseCore_blank : parseCore ['\n', '\n'] [] = [] := by decide

/-- Claim C2 (amended): the pipeline is not idempotent in general, since
fields are re-extracted from the rewritten header block and can differ;
the second application does return its input unchanged when the first
extraction produced no fields and the first table filter removed no
rows: the rewritten document then consists of a blank header block
followed by the original body, re-extraction over that blank block finds
nothing, and the splice and filter reproduce the document. -/
theorem c2_second_run_fixed (T stem : List Char)
    (hM : parseHeaderPairs T stem = [])
    (hH : extractFilenameHints stem = [])
    (hF : cleanFirstTable (rewriteHeader T []) canonicalKeys = rewriteHeader T []) :
    pipelineFix (pipelineFix T stem) stem = pipelineFix T stem := by
  have hU : pipelineFix T stem = rewriteHeader T [] := by
    unfold pipelineFix
    rw [hM, hF]
  have hcut2 : cutIdx (rewriteHeader T []) = 2 := by
    rw [rewrite_empty]
    exact cutIdx_2nl _ (cut_drop T)
  have hparse : parseHeaderPairs (rewriteHeader T []) stem = [] := by
    unfold parseHeaderPairs headerTake
    rw [hcut2, hH, rewrite_empty]
    exact parseCore_blank
  have hrw2 : rewriteHeader (rewriteHeader T []) [] = rewriteHeader T [] := by
    conv_lhs => rw [rewriteHeader, hcut2]
    rw [rewrite_empty T]
    rfl
  rw [hU]
  unfold pipelineFix
  rw [hparse, hrw2, hF]

/-! ## UAN token scan -/

theorem charsAt_get (l : List Char) (i n : Nat) (p : Char → Bool)
    (h : charsAt l i n p = true) : ∀ k, k < n → p (l.getD (i + k) ' ') = true := by
  intro k hk
  simp only [charsAt, List.all_eq_true, List.mem_range] at h
  exact h k hk

theorem isWordC_of_digit (c : Char) (h : isDigitC c = true) : isWordC c = true := by
  simp [isWordC, h]

/-- A 12-digit token fits inside the text. -/
theorem uanTokenAt_le (l : List Char) (i : Nat) (h : uanTokenAt l i = true) :
    i + 12 ≤ l.length := by
  simp only [uanTokenAt, Bool.and_eq_true] at h
  have hd := charsAt_get l i 12 isDigitC h.1.2 11 (by omega)
  by_contra hlen
  rw [List.getD_eq_default _ _ (by omega)] at hd
  exact absurd hd (by decide)

/-- Boundary-delimited 12-digit tokens cannot overlap: every position
strictly inside a token lacks the left word boundary. -/
theorem uan_no_overlap (l : List Char) (i j : Nat) (hi : uanTokenAt l i = true)
    (hij : i < j) (hj : j < i + 12) : uanTokenAt l j = false := by
  simp only [uanTokenAt, Bool.and_eq_true] at hi
  have hd := charsAt_get l i 12 isDigitC hi.1.2 (j - 1 - i) (by omega)
  have hidx : i + (j - 1 - i) = j - 1 := by omega
  rw [hidx] at hd
  have hb : bbAt l j = false := by
    have hj1 : j = (j - 1) + 1 := by omega
    rw [hj1]
    show (!(isWordC (l.getD (j - 1) ' '))) = false
    rw [isWordC_of_digit _ hd]
    rfl
  simp [uanTokenAt, hb]

theorem finditer_uan_go (l : List Char) :
    ∀ (fuel i : Nat), l.length + 1 - i ≤ fuel →
      finditerGo matchUAN l fuel i =
        ((List.range' i (l.length + 1 - i)).filter (uanTokenAt l)).map (fun p => (p, 12)) := by
  intro fuel
  induction fuel with
  | zero =>
    intro i hi
    have h0 : l.length + 1 - i = 0 := by omega
    rw [h0]
    rfl
  | succ f ih =>
    intro i hi
    by_cases hlen : l.length < i
    · have h0 : l.length + 1 - i = 0 := by omega
      rw [h0]
      simp [finditerGo, hlen]
    · have hn : l.length + 1 - i = (l.length - i) + 1 := by omega
      rw [hn, List.range'_succ]
      simp only [finditerGo, hlen, if_false]
      cases htok : uanTokenAt l i with
      | false =>
        have hm : matchUAN l i = none := by simp [matchUAN, htok]
        rw [hm, List.filter_cons, htok]
        simp only [if_false]
        have hrec := ih (i + 1) (by omega)
        have hn1 : l.length + 1 - (i + 1) = l.length - i := by omega
        rw [hn1] at hrec
        exact hrec
      | true =>
        have hm : matchUAN l i = some 12 := by simp [matchUAN, htok]
        have h12 : i + 12 ≤ l.length := uanTokenAt_le l i htok
        rw [hm, List.filter_cons, htok]
        simp only [if_true, List.map_cons]
        congr 1
        have hsplit : l.length - i = (l.length - i - 11) + 11 := by omega
        rw [hsplit, ← List.range'_append (i + 1) 11 (l.length - i - 11) 1]
        have hmid : List.filter (uanTokenAt l) (List.range' (i + 1) 11) = [] := by
          rw [List.filter_eq_nil_iff]
          intro a ha
          rw [List.mem_range'_1] at ha
          simp [uan_no_overlap l i a htok (by omega) (by omega)]
        rw [List.filter_append, hmid, List.nil_append]
        have hrec := ih (i + 12) (by omega)
        have hn2 : l.length + 1 - (i + 12) = l.length - i - 11 := by omega
        rw [hn2] at hrec
        have hstart : i + 1 + 1 * 11 = i + 12 := by omega
        rw [hstart]
        exact hrec

/-- The finditer scan over the 12-digit regex enumerates exactly the
boundary-delimited 12-digit token positions, in order. -/
theorem finditer_uan (l : List Char) :
    finditerL matchUAN l =
      ((List.range (l.length + 1)).filter (uanTokenAt l)).map (fun p => (p, 12)) := by
  unfold finditerL
  rw [finditer_uan_go l (l.length + 1) 0 (by omega), List.range_eq_range']
  simp

/-! ## Header rewriter lemmas -/

theorem foldl_lines_eq_filterMap (m : HMap) (ord : List String) (acc : List (List Char)) :
    ord.foldl (fun a k => match lineF m k with | some x => a ++ [x] | none => a) acc =
      acc ++ ord.filterMap (lineF m) := by
  induction ord generalizing acc with
  | nil => simp
  | cons k ord ih =>
    simp only [List.foldl_cons, List.filterMap_cons]
    cases lineF m k with
    | none => simp [ih]
    | some x => simp [ih]

theorem headerLines_eq_filterMap (m : HMap) :
    headerLines m = canonOrder.filterMap (lineF m) := by
  unfold headerLines
  rw [foldl_lines_eq_filterMap]
  rfl

/-- The rewriter output is the canonical-order line block, a blank line,
then the original body. -/
theorem rewrite_shape (T : List Char) (m : HMap) :
    rewriteHeader T m =
      joinNL (canonOrder.filterMap (lineF m)) ++ strL "\n\n" ++ T.drop (cutIdx T) := by
  unfold rewriteHeader cleanHeaderOf
  rw [headerLines_eq_filterMap, List.append_assoc]

/-! ## Table filter lemmas -/

theorem joinL_splitKeep (md : List Char) : joinL (splitlinesKeepL md) = md := by
  simp only [joinL]
  induction md with
  | nil => rfl
  | cons c t ih =>
    by_cases h : c = '\n'
    · subst h
      simp only [splitlinesKeepL, ite_true]
      simp only [List.flatten_cons, List.singleton_append]
      rw [ih]
    · simp only [splitlinesKeepL, h, if_false]
      cases hsp : splitlinesKeepL t with
      | nil =>
        rw [hsp] at ih
        simp only [List.flatten_nil] at ih
        simp [← ih]
      | cons s ss =>
        rw [hsp] at ih
        simp only [List.flatten_cons] at ih ⊢
        rw [List.cons_append, ih]

theorem drop_len_takeWhile (p : List Char → Bool) (l : List (List Char)) :
    l.drop ((l.takeWhile p).length) = l.dropWhile p := by
  induction l with
  | nil => rfl
  | cons x t ih =>
    cases hx : p x with
    | true => simp [List.takeWhile_cons, List.dropWhile_cons, hx, ih]
    | false => simp [List.takeWhile_cons, List.dropWhile_cons, hx]

/-- Line-level decomposition of the table filter: the lines before the
first table and after its end are emitted verbatim, with the kept rows in
between (also in the no-table and no-row-removed branches, via the
join-split identity). -/
theorem clean_decomp (md : List Char) (keys : HMap) :
    cleanFirstTable md keys =
      joinL ((splitlinesKeepL md).take (ftStartN md))
        ++ joinL (keptRows md keys)
        ++ joinL ((splitlinesKeepL md).drop (ftEndN md)) := by
  cases hfs : ftStart md with
  | none =>
    simp only [cleanFirstTable, ftStartN, ftEndN, tableSliceD, keptRows, hfs,
      List.take_length, List.filter_nil, List.length_nil, Nat.add_zero,
      List.drop_length, joinL, List.flatten_nil, List.append_nil]
    exact (joinL_splitKeep md).symm
  | some s =>
    have hdecomp : splitlinesKeepL md =
        (splitlinesKeepL md).take s ++ tableRun md s
          ++ (splitlinesKeepL md).drop (s + (tableRun md s).length) := by
      have h1 : (splitlinesKeepL md).drop s =
          tableRun md s ++ (splitlinesKeepL md).drop (s + (tableRun md s).length) := by
        unfold tableRun
        rw [← List.drop_drop, drop_len_takeWhile isTableLine ((splitlinesKeepL md).drop s),
          List.takeWhile_append_dropWhile]
      conv_lhs => rw [← List.take_append_drop s (splitlinesKeepL md)]
      rw [h1, ← List.append_assoc]
    simp only [cleanFirstTable, ftStartN, ftEndN, tableSliceD, keptRows, hfs]
    split
    · rename_i hsame
      rw [hsame]
      conv_lhs => rw [← joinL_splitKeep md, hdecomp]
      simp [joinL, List.flatten_append]
    · rfl

/-! ## Vocabulary lemmas -/

/-- For the canonical key dictionary, the vocabulary built by the filter
(lowercased keys plus the auxiliary labels, the latter being duplicates)
matches a token iff one of the thirteen lowercased canonical field names
matches. -/
theorem tokens_any_iff (r' : List Char) :
    ((tokensOf canonicalKeys).any (fun t => containsSub t r') = true)
      ↔ ∃ t ∈ vocab13, containsSub t r' = true := by
  have he : tokensOf canonicalKeys =
      vocab13 ++ [strL "date of joining", strL "payable days", strL "bank name",
        strL "bank account", strL "ifs code", strL "location"] := by decide
  rw [he, List.any_append, Bool.or_eq_true]
  constructor
  · intro h
    rcases h with h | h
    · rw [List.any_eq_true] at h
      exact h
    · rw [List.any_eq_true] at h
      obtain ⟨t, ht, hp⟩ := h
      simp only [List.mem_cons, List.not_mem_nil, or_false] at ht
      rcases ht with ht | ht | ht | ht | ht | ht <;>
        · subst ht
          exact ⟨_, by decide, hp⟩
  · intro h
    left
    rw [List.any_eq_true]
    exact h

/-! ## Claims -/

set_option maxRecDepth 100000

/-- Claim C1: on the specification's example header (PAN token, 12-digit
run, PF line, and the join line "12-04-2019 26 State Bank 1234567890123
SBIN0001234 Mumbai"), the extractor returns the claimed values for PAN,
UAN, PF No., Date of Joining, Payable Days, Bank Account, IFS Code and
Location — but Bank Name comes out as "ate Bank", not the claimed
"State Bank": the source slices rest2 with the days-match end offset,
an index computed in the frame of rest, contradicting its own comment
that Bank Name is the text between the payable-days token and the
account digits. -/
theorem c1_join_line_example_eval :
    parseHeaderPairs exampleDoc (strL "doc") =
      [("PAN", strL "ABCDE1234F"), ("UAN", strL "123456789012"),
       ("PF No.", strL "AB/1234/5678"), ("Date of Joining", strL "12-04-2019"),
       ("Payable Days", strL "26"), ("Bank Account", strL "1234567890123"),
       ("IFS Code", strL "SBIN0001234"), ("Bank Name", strL "ate Bank"),
       ("Location", strL "Mumbai")]
      ∧ strL "ate Bank" ≠ strL "State Bank" := by
  constructor
  · decide
  · decide

/-- Claim C2 (counterexample): the pipeline is not idempotent.  On the
document "Mainak Chhari" the first run extracts Name and emits a header
line for it; the second run cannot re-extract Name from the formatted
line, so the header block collapses and the output changes. -/
theorem c2_not_idempotent :
    pipelineFix (pipelineFix (strL "Mainak Chhari") (strL "x")) (strL "x")
      ≠ pipelineFix (strL "Mainak Chhari") (strL "x") := by
  decide

/-- Claim C2 (witness): the amended statement instantiated on the
document "hello" with path stem "x", where the extraction is empty and
the filter removes nothing. -/
theorem c2_second_run_witness :
    pipelineFix (pipelineFix (strL "hello") (strL "x")) (strL "x")
      = pipelineFix (strL "hello") (strL "x") :=
  c2_second_run_fixed (strL "hello") (strL "x") (by decide) (by decide) (by decide)

/-- Claim C3 (counterexample): the stem "a_1234" splits into two tokens
whose last is a 4-digit run, yet no EmpNo hint is produced — the source
requires at least three underscore-separated tokens. -/
theorem c3_two_token_counterexample :
    fullmatchDigits4 ((splitOnC '_' (strL "a_1234")).getLastD []) = true
      ∧ hmGet (extractFilenameHints (strL "a_1234")) "EmpNo" = none := by
  decide

/-- Claim C3 (amended): for every stem whose underscore split has at
least three tokens and whose last token is an unbroken run of 4 or more
digits, the hints map that token as EmpNo. -/
theorem c3_empno_three_tokens (stem : List Char)
    (h3 : 3 ≤ (splitOnC '_' stem).length)
    (hd : fullmatchDigits4 ((splitOnC '_' stem).getLastD []) = true) :
    hmGet (extractFilenameHints stem) "EmpNo"
      = some ((splitOnC '_' stem).getLastD []) := by
  simp only [extractFilenameHints, h3, if_true, hd, ite_true]
  split
  · split
    · rw [hmGet_set_ne _ _ _ _ (by decide)]
      exact hmGet_set_self _ _ _
    · exact hmGet_set_self _ _ _
  · exact hmGet_set_self _ _ _

/-- Claim C3 (witness): the amended statement instantiated on the
three-token stem "a_b_1234". -/
theorem c3_empno_witness :
    hmGet (extractFilenameHints (strL "a_b_1234")) "EmpNo"
        = some ((splitOnC '_' (strL "a_b_1234")).getLastD [])
      ∧ (splitOnC '_' (strL "a_b_1234")).getLastD [] = strL "1234" :=
  ⟨c3_empno_three_tokens (strL "a_b_1234") (by decide) (by decide), by decide⟩

/-- Claim C4 (counterexample): on "| a |\n| b |" a table-row start marker
begins at offset 0, so the claimed cut index is 0, but the source scans
only for newline-led markers and returns 5 — markers on the first line
are never recognised. -/
theorem c4_first_line_counterexample :
    cutIdx (strL "| a |\n| b |") = 5
      ∧ claimCut (strL "| a |\n| b |") = 0
      ∧ cutIdx (strL "| a |\n| b |") ≠ claimCut (strL "| a |\n| b |") := by
  decide

/-- Claim C4 (amended): the cut index used by both the extractor and the
rewriter equals the earliest offset at which one of the three newline-led
marker strings begins (so a marker on the very first line is not found),
and is the document length when none occurs. -/
theorem c4_cut_marker_scan (l : List Char) : cutIdx l = specCutNL l :=
  cutIdx_eq_specCutNL l

/-- Claim C5: the UAN entry of the extracted mapping is exactly the last
boundary-delimited 12-digit token of the header region in left-to-right
order (and is absent when there is none): earlier 12-digit tokens are
discarded by the scan. -/
theorem c5_uan_last_token (md stem : List Char) :
    hmGet (parseHeaderPairs md stem) "UAN" = (specUANs (headerTake md)).getLast? := by
  rw [parse_get_uan, finditer_uan]
  unfold specUANs
  rw [List.getLast?_map, List.getLast?_map]
  cases (List.filter (uanTokenAt (headerTake md))
      (List.range ((headerTake md).length + 1))).getLast? <;> simp

/-- Claim C6 (counterexample): a mapping entry that is present but holds
the empty string produces no header line at all — the source tests the
value for truthiness, not the key for presence. -/
theorem c6_empty_value_counterexample :
    hmGet ([("Name", [])] : HMap) "Name" = some []
      ∧ rewriteHeader (strL "x") [("Name", [])] = strL "\n\n"
      ∧ startsWithL (strL "**Name**") (rewriteHeader (strL "x") [("Name", [])]) = false := by
  decide

/-- Claim C6 (amended): the rewriter output begins with one formatted
line per canonical field present in the mapping with a nonempty value,
in exactly the fixed canonical order with absent fields skipped, followed
by a blank line and then the original body. -/
theorem c6_header_block_shape (T : List Char) (m : HMap) :
    rewriteHeader T m =
      joinNL (canonOrder.filterMap (lineF m)) ++ strL "\n\n" ++ T.drop (cutIdx T) :=
  rewrite_shape T m

/-- Claim C7: the rewriter output beyond its header block is byte-equal
to the original document from its cut index onward, and the table filter
reproduces every line before the first table and after its end verbatim,
while inside the table it only removes whole rows (the kept rows are a
sublist of the table region). -/
theorem c7_frame_effect (T : List Char) (m keys : HMap) :
    (rewriteHeader T m).drop (cleanHeaderOf m).length = T.drop (cutIdx T)
      ∧ ∃ kept, kept.Sublist (tableSliceD T)
          ∧ cleanFirstTable T keys =
              joinL ((splitlinesKeepL T).take (ftStartN T)) ++ joinL kept
                ++ joinL ((splitlinesKeepL T).drop (ftEndN T)) := by
  constructor
  · unfold rewriteHeader
    exact List.drop_left _ _
  · exact ⟨keptRows T keys, List.filter_sublist _, clean_decomp T keys⟩

/-- Claim C8: the table filter retains every alignment row of the first
table, whatever the vocabulary: each occurrence of an alignment row
survives, and the output is exactly the unchanged surroundings around
the kept rows. -/
theorem c8_alignment_rows_retained (T : List Char) (keys : HMap) (r : List Char)
    (h : isAlignmentRow r = true) :
    List.count r (keptRows T keys) = List.count r (tableSliceD T)
      ∧ cleanFirstTable T keys =
          joinL ((splitlinesKeepL T).take (ftStartN T)) ++ joinL (keptRows T keys)
            ++ joinL ((splitlinesKeepL T).drop (ftEndN T)) := by
  refine ⟨?_, clean_decomp T keys⟩
  unfold keptRows
  exact List.count_filter (by simp [keepRow, h])

/-- Claim C8 (witness): the alignment row of a concrete two-row table is
retained. -/
theorem c8_alignment_witness :
    isAlignmentRow (strL "| --- |\n") = true
      ∧ List.count (strL "| --- |\n") (keptRows (strL "| a |\n| --- |\n") canonicalKeys)
          = List.count (strL "| --- |\n") (tableSliceD (strL "| a |\n| --- |\n")) :=
  ⟨by decide, (c8_alignment_rows_retained (strL "| a |\n| --- |\n") canonicalKeys
    (strL "| --- |\n") (by decide)).1⟩

/-- Claim C9: a non-alignment row of the first table is removed by the
filter (run with the canonical key dictionary) iff its lowercased text
contains one of the thirteen lowercased canonical field names as a raw
substring — not as a whole word, so rows containing words such as
"Japan" or "Company" (substring "pan") or "Username" (substring "name")
are removed. -/
theorem c9_row_removal_iff_vocab (T r : List Char)
    (hmem : r ∈ tableSliceD T) (hal : isAlignmentRow r = false) :
    List.count r (keptRows T canonicalKeys) = 0
      ↔ ∃ t ∈ vocab13, containsSub t (lowerL r) = true := by
  unfold keptRows
  cases hkeep : keepRow canonicalKeys r with
  | true =>
    rw [List.count_filter hkeep]
    have hpos : 0 < List.count r (tableSliceD T) := List.count_pos_iff.mpr hmem
    constructor
    · intro h0
      omega
    · intro hex
      exfalso
      simp only [keepRow, hal, Bool.false_or, Bool.not_eq_true'] at hkeep
      have := (tokens_any_iff (lowerL r)).mpr hex
      rw [hkeep] at this
      exact absurd this (by decide)
  | false =>
    have hnot : r ∉ List.filter (keepRow canonicalKeys) (tableSliceD T) := by
      intro hmem'
      rw [List.mem_filter] at hmem'
      rw [hkeep] at hmem'
      exact absurd hmem'.2 (by decide)
    refine ⟨fun _ => ?_, fun _ => List.count_eq_zero.mpr hnot⟩
    simp only [keepRow, hal, Bool.false_or, Bool.not_eq_false'] at hkeep
    exact (tokens_any_iff (lowerL r)).mp hkeep

/-- Claim C9 (witness): the data row "| Japan Co | 5 |" of a concrete
table contains no header field, yet it is removed because "japan"
contains the substring "pan". -/
theorem c9_removal_witness :
    List.count (strL "| Japan Co | 5 |\n")
      (keptRows (strL "| Japan Co | 5 |\n| x |\n") canonicalKeys) = 0 :=
  (c9_row_removal_iff_vocab (strL "| Japan Co | 5 |\n| x |\n") (strL "| Japan Co | 5 |\n")
    (by decide) (by decide)).mpr ⟨strL "pan", by decide, by decide⟩

/-- Claim C10: no extraction step ever assigns the key E.S.I. No., so the
extracted mapping never contains it, and the rewriter consequently emits
the header block as if the E.S.I. No. slot of the canonical order were
absent — no such line is ever produced. -/
theorem c10_esi_never_emitted (md stem T : List Char) :
    hmGet (parseHeaderPairs md stem) "E.S.I. No." = none
      ∧ rewriteHeader T (parseHeaderPairs md stem) =
          joinNL (canonOrderNoESI.filterMap (lineF (parseHeaderPairs md stem)))
            ++ strL "\n\n" ++ T.drop (cutIdx T) := by
  refine ⟨parse_get_esi md stem, ?_⟩
  rw [rewrite_shape]
  have hnone : lineF (parseHeaderPairs md stem) "E.S.I. No." = none := by
    simp [lineF, parse_get_esi md stem]
  have hfm : canonOrder.filterMap (lineF (parseHeaderPairs md stem))
      = canonOrderNoESI.filterMap (lineF (parseHeaderPairs md stem)) := by
    simp only [canonOrder, canonOrderNoESI, List.filterMap_cons, hnone]
  rw [hfm]

end PayslipFix
